import Mathlib

/-!
Verification of the function-documentation extraction engine in
`cli/funcdoc.go` (repository haflanagan/diecast).

The Go code is shallowly embedded:

* `matchFnDocString` models `rxutil.Match(text, rxFnDocString)` for the
  fixed pattern `//\s*fn\s*(?P<func>[^:]+):\s*(?P<docstring>.*)`
  (unanchored search, greedy quantifiers, `.` not matching newline,
  `[^:]` matching any character except the colon, newlines included).
* `extractArgNames` models
  `rxutil.Match(docstring, pat).AllCaptures()` for the fixed pattern
  that repeatedly matches one emphasis-marked word: for each
  non-overlapping match of a maximal run of immediately adjacent
  starred words, the capture group keeps the last iteration, and the
  captures of all matches are collected in order.
* Go reflection is embedded by `GoType` / `GoFuncType` / `GoValue`.
  A `GoType` carries exactly what `reflect.Type.Name()` returns for it:
  the declared name for a defined type (for example "int"), and the
  empty string for every non-defined type, in particular for the empty
  interface type and for slice types (the shape a variadic last
  parameter has under reflection).  `typeutil.ResolveValue` followed by
  the `reflect.Func` kind test is embedded by the two constructors of
  `GoValue`.
* `go/parser.ParseFile` is external; its outcome is passed to
  `GenerateFunctionDocs` as an `Except` value holding either the parse
  error or the list of comment groups (each group the list of the raw
  texts of its comment lines, comment markers included).
-/

/-- Go regexp class `\s` = space, tab, newline, form feed, carriage return. -/
def isGoSpace (c : Char) : Bool :=
  c == ' ' || c == '\t' || c == '\n' || c == '\x0c' || c == '\r'

/-- Whitespace trimmed by Go `strings.TrimSpace` (`unicode.IsSpace`),
restricted to the Latin-1 range: space, tab, newline, vertical tab,
form feed, carriage return, NEL and NBSP. -/
def isGoTrimSpace (c : Char) : Bool :=
  c == ' ' || c == '\t' || c == '\n' || c == '\x0b' || c == '\x0c' ||
  c == '\r' || c == '\u0085' || c == ' '

/-- Go regexp class `\w` = ASCII letters, digits and underscore. -/
def isWordChar (c : Char) : Bool :=
  ('a' ≤ c && c ≤ 'z') || ('A' ≤ c && c ≤ 'Z') || ('0' ≤ c && c ≤ '9') || c == '_'

/-- The `func` capture group of `rxFnDocString` given the characters
after `fn`: the name segment runs to the first colon (the class `[^:]`
also matches newlines); the greedy `\s*` eats its leading whitespace,
and when the whole segment is whitespace the greedy run gives back
exactly one character so that `[^:]+` can still match. -/
def fnNameChars (r2 : List Char) : List Char :=
  let seg := r2.takeWhile (fun c => c ≠ ':')
  let core := seg.dropWhile isGoSpace
  if core.isEmpty then
    match seg.getLast? with
    | some c => [c]
    | none => []
  else core

/-- Attempt to match the tail of `rxFnDocString` starting right after a
literal `//`: `\s*fn\s*(?P<func>[^:]+):\s*(?P<docstring>.*)`.  The
docstring group starts after the greedy `\s*` following the colon and
stops at a newline, since `.` does not match newlines. -/
def tryFnMatch (cs : List Char) : Option (String × String) :=
  match cs.dropWhile isGoSpace with
  | c1 :: c2 :: r2 =>
      if c1 = 'f' ∧ c2 = 'n' then
        match r2.drop (r2.takeWhile (fun c => c ≠ ':')).length with
        | c3 :: tail =>
            if c3 = ':' then
              if (fnNameChars r2).isEmpty then none
              else
                some (String.mk (fnNameChars r2),
                      String.mk ((tail.dropWhile isGoSpace).takeWhile (fun c => c ≠ '\n')))
            else none
        | [] => none
      else none
  | _ => none

/-- Unanchored search for `rxFnDocString`: try every occurrence of `//`
from the left, taking the first position where the rest of the pattern
matches.  Fuel is the length of the text; each step consumes one
character. -/
def findFnDocAux : Nat → List Char → Option (String × String)
  | 0, _ => none
  | fuel + 1, cs =>
      match cs with
      | [] => none
      | c :: rest =>
          if c = '/' ∧ rest.head? = some '/' then
            match tryFnMatch rest.tail with
            | some r => some r
            | none => findFnDocAux fuel rest
          else findFnDocAux fuel rest

/-- Model of `rxutil.Match(text, rxFnDocString)` returning the named
groups `func` and `docstring`, or `none` when the pattern does not
match anywhere in the line. -/
def matchFnDocString (s : String) : Option (String × String) :=
  findFnDocAux s.data.length s.data

/-- One emphasis-marked word: a star, one or more word characters, a
star.  Returns the word and the remainder after the closing star. -/
def parseTok (cs : List Char) : Option (String × List Char) :=
  match cs with
  | '*' :: rest =>
      let w := rest.takeWhile isWordChar
      if w.isEmpty then none
      else
        match rest.drop w.length with
        | '*' :: rest2 => some (String.mk w, rest2)
        | _ => none
  | _ => none

/-- A maximal run of immediately adjacent emphasis-marked words, as one
match of the repeated group: the capture keeps the word of the last
iteration, and the remainder starts after the run. -/
def parseRunAux : Nat → List Char → Option (String × List Char)
  | 0, _ => none
  | fuel + 1, cs =>
      match parseTok cs with
      | none => none
      | some (t, rest) =>
          match parseRunAux fuel rest with
          | some r => some r
          | none => some (t, rest)

/-- Left-to-right non-overlapping scan collecting the capture of every
match of the repeated emphasis group, in order. -/
def scanCapturesAux : Nat → List Char → List String
  | 0, _ => []
  | _ + 1, [] => []
  | fuel + 1, c :: rest =>
      match parseRunAux (c :: rest).length (c :: rest) with
      | some (t, rest2) => t :: scanCapturesAux fuel rest2
      | none => scanCapturesAux fuel rest

/-- Model of `rxutil.Match(docstring, argname pattern).AllCaptures()`;
the empty list when the pattern matches nowhere. -/
def extractArgNames (s : String) : List String :=
  scanCapturesAux s.data.length s.data

/-- Go `strings.TrimPrefix(text, "//")`. -/
def goTrimPrefixSlashes (s : String) : String :=
  match s.data with
  | '/' :: '/' :: rest => String.mk rest
  | _ => s

/-- Go `strings.TrimSpace`. -/
def goTrimSpace (s : String) : String :=
  String.mk (((s.data.dropWhile isGoTrimSpace).reverse.dropWhile isGoTrimSpace).reverse)

/-- Go `strings.Join`. -/
def goJoin (sep : String) : List String → String
  | [] => ""
  | [s] => s
  | s :: rest => s ++ sep ++ goJoin sep rest

/-- Go `strings.Split(s, ",")` on the character list of `s`. -/
def splitComma : List Char → List (List Char)
  | [] => [[]]
  | c :: rest =>
      if c = ',' then [] :: splitComma rest
      else
        match splitComma rest with
        | [] => [[c]]
        | g :: gs => (c :: g) :: gs

/-- What `reflect.Type.Name()` returns for a Go type: the declared name
for a defined type, the empty string for a non-defined type. -/
structure GoType where
  reflectName : String
deriving DecidableEq, Repr

/-- The defined type `int`. -/
def intT : GoType := ⟨"int"⟩

/-- The defined type `string`. -/
def stringT : GoType := ⟨"string"⟩

/-- The empty interface type `interface\x7b\x7d`.  It is not a defined
type, so `reflect.Type.Name()` returns the empty string for it. -/
def interfaceEmptyT : GoType := ⟨""⟩

/-- A slice type.  Slice types are not defined types, so
`reflect.Type.Name()` returns the empty string; this is the type
reflection reports for a variadic last parameter declared `...T`. -/
def goSliceType (_elem : GoType) : GoType := ⟨""⟩

/-- Reflected shape of a Go function: parameter types in order, the
variadic flag, result types in order. -/
structure GoFuncType where
  params : List GoType
  variadic : Bool
  results : List GoType
deriving DecidableEq, Repr

/-- A registry value after `typeutil.ResolveValue`: either a value of
kind `reflect.Func` with its reflected shape, or a value of any other
kind. -/
inductive GoValue where
  | fnVal (t : GoFuncType)
  | nonFn
deriving DecidableEq, Repr

/-- Whether the resolved value has kind `reflect.Func`
(`typeutil.IsKind(fn, reflect.Func)`). -/
def isFnValue : GoValue → Bool
  | .fnVal _ => true
  | .nonFn => false

/-- The registry `diecast.FuncMap` (a Go map from names to values),
embedded as a lookup function. -/
def FuncMap : Type := String → Option GoValue

/-- Rendering of input parameter `i` in `getFnSignature`: the reflected
type name, with the (dead, see `interfaceEmptyT`) rewrite of the
literal name `interface\x7b\x7d` to `any`, the `...` prefix on the last
parameter of a variadic function, and the extracted argument name in
front when index `i` falls inside the argument-name list. -/
def renderInParam (variadic : Bool) (nparams : Nat) (inArgNames : List String)
    (i : Nat) (inT : GoType) : String :=
  let typename := if inT.reflectName = "interface{}" then "any" else inT.reflectName
  let typename := if variadic && (i + 1 == nparams) then "..." ++ typename else typename
  match inArgNames.get? i with
  | some a => a ++ " " ++ typename
  | none => typename

/-- Rendering of one output type in `getFnSignature`. -/
def renderOutType (outT : GoType) : String :=
  if outT.reflectName = "interface{}" then "any" else outT.reflectName

/-- `getFnSignature` from `cli/funcdoc.go`: for a value of kind
`reflect.Func`, the comma-space-joined rendered parameters and the
comma-space-joined rendered results; otherwise the error
"must provide a function to get a signature". -/
def getFnSignature (fn : GoValue) (inArgNames : List String) :
    Except String (String × String) :=
  match fn with
  | .fnVal fnT =>
      Except.ok
        (goJoin ", " (fnT.params.enum.map
          (fun p => renderInParam fnT.variadic fnT.params.length inArgNames p.1 p.2)),
         goJoin ", " (fnT.results.map renderOutType))
  | .nonFn => Except.error "must provide a function to get a signature"

/-- The `functionDoc` struct from `cli/funcdoc.go`. -/
structure functionDoc where
  Name : String
  DocString : String
  Signature : String
  Returns : String
deriving DecidableEq, Repr

/-- The zero value `&functionDoc\x7b\x7d` each group starts from. -/
def emptyDoc : functionDoc := ⟨"", "", "", ""⟩

/-- Processing of one comment line of a group, from the inner loop of
`GenerateFunctionDocs`.  `none` is `continue NextComment`: the group is
abandoned.  `some d` is the accumulated record after the line. -/
def stepLine (funcs : FuncMap) (doc : functionDoc) (line : String) :
    Option functionDoc :=
  match matchFnDocString line with
  | some (fnname, docstring) =>
      match funcs fnname with
      | some fn =>
          if docstring = "" then some doc
          else
            match getFnSignature fn (extractArgNames docstring) with
            | .ok (signature, outputs) =>
                some { Name := fnname, DocString := docstring,
                       Signature := signature, Returns := outputs }
            | .error _ => none
      | none => some doc
  | none =>
      if doc.Name = "" then none
      else
        some { doc with
               DocString := doc.DocString ++ " " ++
                 goTrimSpace (goTrimPrefixSlashes line) }

/-- The per-group loop: process the lines in order, aborting the group
on `continue NextComment`. -/
def processGroupAux (funcs : FuncMap) : functionDoc → List String → Option functionDoc
  | doc, [] => some doc
  | doc, line :: rest =>
      match stepLine funcs doc line with
      | some d => processGroupAux funcs d rest
      | none => none

/-- One comment group processed from the zero record; `some r` exactly
when the group reaches its unconditional `docs = append(docs, doc)`. -/
def processGroup (funcs : FuncMap) (lines : List String) : Option functionDoc :=
  processGroupAux funcs emptyDoc lines

/-- The record list built by `GenerateFunctionDocs` over the parsed
comment groups. -/
def extractDocs (funcs : FuncMap) (groups : List (List String)) : List functionDoc :=
  groups.filterMap (processGroup funcs)

/-- `GenerateFunctionDocs` from `cli/funcdoc.go`.  The first component
is the returned record slice, the second the returned error; the Go
code returns `(docs, nil)` on parse success and `(nil, err)` on parse
failure.  The parse outcome of `parser.ParseFile` on the source file is
supplied as the `parsed` argument. -/
def GenerateFunctionDocs (funcs : FuncMap)
    (parsed : Except String (List (List String))) :
    Option (List functionDoc) × Option String :=
  match parsed with
  | .ok source => (some (extractDocs funcs source), none)
  | .error err => (none, some err)

/-- The return-signature decoration in `main`: empty stays empty, a
value that `strings.Split` on "," cuts into more than one piece is
parenthesized, anything else gets a single leading space. -/
def renderReturns (r : String) : String :=
  if r = "" then ""
  else if (splitComma r.data).length > 1 then " (" ++ r ++ ")"
  else " " ++ r

/-- The block `main` prints for one record: the two `Printf` calls. -/
def renderDoc (doc : functionDoc) : String :=
  doc.Name ++ "(" ++ doc.Signature ++ ")" ++ renderReturns doc.Returns ++ "\n" ++
  doc.DocString ++ "\n\n"

/-- The full text `main` prints for a record list. -/
def mainOutput (docs : List functionDoc) : String :=
  String.join (docs.map renderDoc)

/-- Outcome of scanning one comment group with the correlator state
machine of the specification: abandoned, or completed while still in
INIT, or completed in ACTIVE. -/
inductive ScanOutcome where
  | abandoned
  | initEnd
  | activeEnd
deriving DecidableEq, Repr

/-- Spec-side single-line transition of the correlator state machine
(spec section 4.3), `active` being true in state ACTIVE: an accepted
annotation line (known name, non-empty docstring, synthesis success)
moves to ACTIVE; a synthesis failure abandons; an ignored annotation
line keeps the state; a non-matching line appends in ACTIVE and
abandons in INIT. -/
def specStep (funcs : FuncMap) (active : Bool) (line : String) : Option Bool :=
  match matchFnDocString line with
  | some (fnname, docstring) =>
      match funcs fnname with
      | some fn =>
          if docstring = "" then some active
          else
            match getFnSignature fn (extractArgNames docstring) with
            | .ok _ => some true
            | .error _ => none
      | none => some active
  | none => if active then some true else none

/-- Spec-side scan of the remaining lines of a group from a given
state. -/
def specScanAux (funcs : FuncMap) : Bool → List String → ScanOutcome
  | active, [] => if active then .activeEnd else .initEnd
  | active, line :: rest =>
      match specStep funcs active line with
      | some a => specScanAux funcs a rest
      | none => .abandoned

/-- Spec-side scan of a whole group, starting in INIT. -/
def specScan (funcs : FuncMap) (lines : List String) : ScanOutcome :=
  specScanAux funcs false lines

/-- The correlator state an accumulated record corresponds to: ACTIVE
exactly when a name has been accepted. -/
def activeOf (doc : functionDoc) : Bool :=
  decide (doc.Name ≠ "")

/-- The return signature as the specification words it, as a function
of the list of rendered return type names, amended only where forced:
a single return value whose rendered name is empty renders as nothing
(no leading space). -/
def renderReturnsSpec : List String → String
  | [] => ""
  | [t] => if t = "" then "" else " " ++ t
  | outs => " (" ++ goJoin ", " outs ++ ")"

/-- Scenario registry: `Add` mapped to `func(a int, b int) int`. -/
def regAdd : FuncMap := fun s =>
  if s = "Add" then some (.fnVal ⟨[intT, intT], false, [intT]⟩) else none

/-- Scenario A comment group. -/
def gAdd : List String := ["// fn Add: adds *a* and *b* together."]

/-- Scenario registry: `Echo` mapped to `func(msg string) string`. -/
def regEcho : FuncMap := fun s =>
  if s = "Echo" then some (.fnVal ⟨[stringT], false, [stringT]⟩) else none

/-- Scenario C comment group. -/
def gEcho : List String :=
  ["// fn Echo: returns *msg* unchanged.", "// Useful for testing."]

/-- Scenario B registry: no functions at all, in particular no
`Multiply`. -/
def regB : FuncMap := fun _ => none

/-- Scenario B comment group. -/
def gMultiply : List String := ["// fn Multiply: multiplies *a* and *b*."]

/-- Registry mapping `Bad` to a value that is not of kind
`reflect.Func`. -/
def regBad : FuncMap := fun s =>
  if s = "Bad" then some .nonFn else none

/-- A comment group whose annotation names `Bad`. -/
def gBad : List String := ["// fn Bad: broken."]

/-- Registry mapping `Nope` to `func() interface\x7b\x7d`. -/
def regNope : FuncMap := fun s =>
  if s = "Nope" then some (.fnVal ⟨[], false, [interfaceEmptyT]⟩) else none

/-- A comment group whose annotation names `Nope`. -/
def gNope : List String := ["// fn Nope: yields anything."]

/-- The spec-side invariant on records: the zero record, or a record
whose name resolves in the registry and whose docstring is non-empty. -/
def recordOk (funcs : FuncMap) (d : functionDoc) : Prop :=
  d = emptyDoc ∨ ((funcs d.Name).isSome ∧ d.DocString ≠ "")

example : matchFnDocString "// fn Add: adds *a* and *b* together." =
    some ("Add", "adds *a* and *b* together.") := by rfl

example : extractArgNames "adds *a* and *b* together." = ["a", "b"] := by rfl

example : processGroup regAdd gAdd =
    some ⟨"Add", "adds *a* and *b* together.", "a int, b int", "int"⟩ := by rfl

theorem data_append_eq (s t : String) : (s ++ t).data = s.data ++ t.data := rfl

theorem mk_cons_ne_empty (c : Char) (l : List Char) : String.mk (c :: l) ≠ "" := by
  intro h
  have hd : (String.mk (c :: l)).data = ("" : String).data := congrArg String.data h
  simp at hd

theorem append_space_ne_empty (a b : String) : a ++ " " ++ b ≠ "" := by
  intro h
  have hd : (a ++ " " ++ b).data = ("" : String).data := congrArg String.data h
  rw [data_append_eq, data_append_eq] at hd
  simp at hd

theorem splitComma_ne_nil (cs : List Char) : splitComma cs ≠ [] := by
  induction cs with
  | nil => simp [splitComma]
  | cons c rest ih =>
    simp only [splitComma]
    split
    · simp
    · split
      · simp
      · simp

theorem splitComma_eq_single (cs : List Char) (h : ',' ∉ cs) : splitComma cs = [cs] := by
  induction cs with
  | nil => rfl
  | cons c rest ih =>
    simp only [List.mem_cons, not_or] at h
    have hc : ¬ (c = ',') := fun hcc => h.1 hcc.symm
    simp only [splitComma, if_neg hc, ih h.2]

theorem one_lt_length_splitComma (cs : List Char) (h : ',' ∈ cs) :
    1 < (splitComma cs).length := by
  induction cs with
  | nil => simp at h
  | cons c rest ih =>
    simp only [splitComma]
    by_cases hc : c = ','
    · rw [if_pos hc]
      cases hrest : splitComma rest with
      | nil => exact absurd hrest (splitComma_ne_nil rest)
      | cons g gs => simp
    · rw [if_neg hc]
      have hmem : ',' ∈ rest := by
        rcases List.mem_cons.mp h with h1 | h2
        · exact absurd h1.symm hc
        · exact h2
      have hlen := ih hmem
      cases hrest : splitComma rest with
      | nil => exact absurd hrest (splitComma_ne_nil rest)
      | cons g gs =>
        rw [hrest] at hlen
        simpa using hlen

theorem mem_goJoin_comma (a b : String) (rest : List String) :
    ',' ∈ (goJoin ", " (a :: b :: rest)).data := by
  show ',' ∈ (a ++ ", " ++ goJoin ", " (b :: rest)).data
  rw [data_append_eq, data_append_eq]
  simp [String.mk]

theorem goJoin_two_ne_empty (a b : String) (rest : List String) :
    goJoin ", " (a :: b :: rest) ≠ "" := by
  intro h
  have hm := mem_goJoin_comma a b rest
  rw [h] at hm
  simp at hm

theorem tryFnMatch_name_ne_empty (cs : List Char) (n ds : String)
    (h : tryFnMatch cs = some (n, ds)) : n ≠ "" := by
  unfold tryFnMatch at h
  split at h
  · split at h
    · split at h
      · split at h
        · split at h
          · exact absurd h (by simp)
          · rename_i hne
            have hn := congrArg Prod.fst (Option.some.inj h)
            intro h0
            rw [h0] at hn
            have hd : fnNameChars _ = [] := congrArg String.data hn
            rw [hd] at hne
            exact hne rfl
        · exact absurd h (by simp)
      · exact absurd h (by simp)
    · exact absurd h (by simp)
  · exact absurd h (by simp)

theorem findFnDocAux_name_ne (fuel : Nat) : ∀ (cs : List Char) (n ds : String),
    findFnDocAux fuel cs = some (n, ds) → n ≠ "" := by
  induction fuel with
  | zero => intro cs n ds h; simp [findFnDocAux] at h
  | succ fuel ih =>
    intro cs n ds h
    cases cs with
    | nil => simp [findFnDocAux] at h
    | cons c rest =>
      simp only [findFnDocAux] at h
      split at h
      · split at h
        · rename_i heq
          rw [h] at heq
          exact tryFnMatch_name_ne_empty _ n ds heq
        · exact ih rest n ds h
      · exact ih rest n ds h

theorem matchFnDocString_name_ne_empty (line n ds : String)
    (h : matchFnDocString line = some (n, ds)) : n ≠ "" :=
  findFnDocAux_name_ne _ _ n ds h

theorem stepLine_sim (funcs : FuncMap) (doc : functionDoc) (line : String) :
    (stepLine funcs doc line = none ↔ specStep funcs (activeOf doc) line = none)
    ∧ (∀ d, stepLine funcs doc line = some d →
        specStep funcs (activeOf doc) line = some (activeOf d)) := by
  cases hm : matchFnDocString line with
  | none =>
    by_cases hname : doc.Name = ""
    · constructor
      · simp [stepLine, specStep, hm, hname, activeOf]
      · intro d hd; simp [stepLine, hm, hname] at hd
    · constructor
      · simp [stepLine, specStep, hm, hname, activeOf]
      · intro d hd
        simp only [stepLine, hm, if_neg hname] at hd
        have hrec := Option.some.inj hd
        have hdn : d.Name = doc.Name := by rw [← hrec]
        simp [specStep, hm, activeOf, hname, hdn]
  | some p =>
    obtain ⟨n, ds⟩ := p
    cases hf : funcs n with
    | none =>
      constructor
      · simp [stepLine, specStep, hm, hf]
      · intro d hd
        simp only [stepLine, hm, hf] at hd
        have hdd : doc = d := Option.some.inj hd
        simp [specStep, hm, hf, hdd]
    | some fn =>
      by_cases hds : ds = ""
      · constructor
        · simp [stepLine, specStep, hm, hf, hds]
        · intro d hd
          simp only [stepLine, hm, hf, if_pos hds] at hd
          have hdd : doc = d := Option.some.inj hd
          simp [specStep, hm, hf, hds, hdd]
      · cases hg : getFnSignature fn (extractArgNames ds) with
        | error e =>
          constructor
          · simp [stepLine, specStep, hm, hf, hds, hg]
          · intro d hd
            simp [stepLine, hm, hf, hds, hg] at hd
        | ok pr =>
          obtain ⟨sig, out⟩ := pr
          have hn : n ≠ "" := matchFnDocString_name_ne_empty line n ds hm
          constructor
          · simp [stepLine, specStep, hm, hf, hds, hg]
          · intro d hd
            simp only [stepLine, hm, hf, if_neg hds, hg] at hd
            have hrec := Option.some.inj hd
            have hdn : d.Name = n := by rw [← hrec]
            simp [specStep, hm, hf, hds, hg, activeOf, hdn, hn]

theorem processGroupAux_sim (funcs : FuncMap) (lines : List String) :
    ∀ doc : functionDoc,
      (processGroupAux funcs doc lines = none ↔
        specScanAux funcs (activeOf doc) lines = .abandoned)
      ∧ (∀ r, processGroupAux funcs doc lines = some r →
          specScanAux funcs (activeOf doc) lines =
            (if r.Name = "" then .initEnd else .activeEnd)) := by
  induction lines with
  | nil =>
    intro doc
    constructor
    · simp only [processGroupAux, specScanAux]
      constructor
      · intro h; exact absurd h (by simp)
      · intro h
        by_cases hname : doc.Name = "" <;> simp [activeOf, hname] at h
    · intro r hr
      have hdr : doc = r := Option.some.inj hr
      by_cases hname : doc.Name = "" <;>
        simp [specScanAux, activeOf, hname, ← hdr]
  | cons line rest ih =>
    intro doc
    cases hs : stepLine funcs doc line with
    | none =>
      have hspec := (stepLine_sim funcs doc line).1.mp hs
      constructor
      · simp [processGroupAux, specScanAux, hs, hspec]
      · intro r hr
        simp [processGroupAux, hs] at hr
    | some d =>
      have hspec := (stepLine_sim funcs doc line).2 d hs
      constructor
      · simp only [processGroupAux, specScanAux, hs, hspec]
        exact (ih d).1
      · intro r hr
        simp only [processGroupAux, hs] at hr
        simp only [specScanAux, hspec]
        exact (ih d).2 r hr

theorem stepLine_preserves_recordOk (funcs : FuncMap) (doc : functionDoc)
    (line : String) (d : functionDoc) (hP : recordOk funcs doc)
    (h : stepLine funcs doc line = some d) : recordOk funcs d := by
  cases hm : matchFnDocString line with
  | none =>
    by_cases hname : doc.Name = ""
    · simp [stepLine, hm, hname] at h
    · simp only [stepLine, hm, if_neg hname] at h
      have hrec := Option.some.inj h
      rcases hP with hP | ⟨h1, h2⟩
      · exfalso; apply hname; rw [hP]; rfl
      · right
        constructor
        · rw [← hrec]; exact h1
        · rw [← hrec]; exact append_space_ne_empty _ _
  | some p =>
    obtain ⟨n, ds⟩ := p
    cases hf : funcs n with
    | none =>
      simp only [stepLine, hm, hf] at h
      rw [← Option.some.inj h]; exact hP
    | some fn =>
      by_cases hds : ds = ""
      · simp only [stepLine, hm, hf, if_pos hds] at h
        rw [← Option.some.inj h]; exact hP
      · cases hg : getFnSignature fn (extractArgNames ds) with
        | error e => simp [stepLine, hm, hf, hds, hg] at h
        | ok pr =>
          obtain ⟨sig, out⟩ := pr
          simp only [stepLine, hm, hf, if_neg hds, hg] at h
          right
          rw [← Option.some.inj h]
          exact ⟨by simp [hf], hds⟩

theorem processGroupAux_preserves_recordOk (funcs : FuncMap) (lines : List String) :
    ∀ doc r, recordOk funcs doc → processGroupAux funcs doc lines = some r →
      recordOk funcs r := by
  induction lines with
  | nil =>
    intro doc r hP h
    rw [← Option.some.inj h]; exact hP
  | cons line rest ih =>
    intro doc r hP h
    cases hs : stepLine funcs doc line with
    | none => simp [processGroupAux, hs] at h
    | some d =>
      simp only [processGroupAux, hs] at h
      exact ih d r (stepLine_preserves_recordOk funcs doc line d hP hs) h

/-- C1 (corrected): a DocRecord is emitted for a comment group if and
only if the scan of the group ran to completion without abandonment
(no non-matching line while in INIT and no signature-synthesis
failure); the emitted record carries a non-empty name exactly when the
group ended in ACTIVE.  A group that completes while still in INIT
(every line matched the grammar but was ignored) emits the empty
record; in particular Scenario B emits one empty record rather than
none. -/
theorem emit_iff_scan_completes :
    (∀ (funcs : FuncMap) (g : List String),
      ((processGroup funcs g).isSome ↔ specScan funcs g ≠ .abandoned)
      ∧ ∀ r, processGroup funcs g = some r →
          (r.Name ≠ "" ↔ specScan funcs g = .activeEnd))
    ∧ extractDocs regB [gMultiply] = [emptyDoc] := by
  constructor
  · intro funcs g
    have hsim := processGroupAux_sim funcs g emptyDoc
    have hact : activeOf emptyDoc = false := rfl
    rw [hact] at hsim
    constructor
    · simp only [processGroup, specScan]
      exact Option.isSome_iff_ne_none.trans (not_iff_not.mpr hsim.1)
    · intro r hr
      have h2 := hsim.2 r hr
      simp only [specScan]
      by_cases hname : r.Name = ""
      · rw [if_pos hname] at h2
        simp [hname, h2]
      · rw [if_neg hname] at h2
        simp [hname, h2]
  · rfl

/-- C1 counterexample: with a registry not containing `Multiply` and
the single-line Scenario B comment group, `GenerateFunctionDocs` does
produce a record (the empty one), where the claim says no record is
produced. -/
theorem scenarioB_emits_record :
    GenerateFunctionDocs regB (Except.ok [gMultiply]) =
      (some [{ Name := "", DocString := "", Signature := "", Returns := "" }], none) := rfl

/-- C1 witness: the Scenario C group is emitted and ends ACTIVE. -/
theorem emit_iff_scan_completes_witness :
    specScan regEcho gEcho = ScanOutcome.activeEnd ∧
    (processGroup regEcho gEcho).isSome := by
  constructor
  · exact ((emit_iff_scan_completes.1 regEcho gEcho).2
      ⟨"Echo", "returns *msg* unchanged. Useful for testing.", "msg string", "string"⟩
      rfl).mp (by decide)
  · exact (emit_iff_scan_completes.1 regEcho gEcho).1.mpr (by decide)

/-- C2 (corrected): every emitted DocRecord either has a name that
resolves in the registry together with a non-empty docstring, or is
the empty record emitted by a group that completed while still in
INIT; an abandoned group (in particular one whose signature synthesis
failed) yields no record, and a record with a non-empty name comes
only from a group that ended in ACTIVE. -/
theorem docRecord_registry_invariant :
    (∀ (funcs : FuncMap) (groups : List (List String)) (r : functionDoc),
        r ∈ extractDocs funcs groups →
        r = emptyDoc ∨ ((funcs r.Name).isSome ∧ r.DocString ≠ ""))
    ∧ (∀ (funcs : FuncMap) (g : List String),
        specScan funcs g = .abandoned → processGroup funcs g = none)
    ∧ (∀ (funcs : FuncMap) (g : List String) (r : functionDoc),
        processGroup funcs g = some r → r.Name ≠ "" →
        specScan funcs g = .activeEnd) := by
  refine ⟨?_, ?_, ?_⟩
  · intro funcs groups r hr
    simp only [extractDocs] at hr
    obtain ⟨g, _, hpg⟩ := List.mem_filterMap.mp hr
    exact processGroupAux_preserves_recordOk funcs g emptyDoc r (Or.inl rfl) hpg
  · intro funcs g h
    have hsim := processGroupAux_sim funcs g emptyDoc
    have hact : activeOf emptyDoc = false := rfl
    rw [hact] at hsim
    exact hsim.1.mpr h
  · intro funcs g r hr hname
    have hsim := processGroupAux_sim funcs g emptyDoc
    have hact : activeOf emptyDoc = false := rfl
    rw [hact] at hsim
    have h2 := hsim.2 r hr
    rw [if_neg hname] at h2
    exact h2

/-- C2 counterexample: the Scenario B run returns a record whose name
is not in the registry and whose docstring is empty. -/
theorem scenarioB_breaks_invariant :
    extractDocs regB [gMultiply] = [emptyDoc]
    ∧ regB emptyDoc.Name = none
    ∧ emptyDoc.DocString = "" := ⟨rfl, rfl, rfl⟩

/-- C2 witness: a group whose synthesis fails emits nothing. -/
theorem docRecord_registry_invariant_witness :
    processGroup regBad gBad = none :=
  docRecord_registry_invariant.2.1 regBad gBad (by decide)

/-- C3 counterexample: Scenario A does not produce the block the claim
states; the emphasis markers around the argument names are never
removed from the docstring. -/
theorem scenarioA_markers_not_stripped :
    mainOutput (extractDocs regAdd [gAdd]) ≠
      "Add(a int, b int) int\nadds a and b together.\n\n" := by decide

/-- C3 (corrected): the Scenario A block has the stated signature line,
but the docstring line keeps the emphasis markers. -/
theorem scenarioA_rendered_block :
    mainOutput (extractDocs regAdd [gAdd]) =
      "Add(a int, b int) int\nadds *a* and *b* together.\n\n" := rfl

/-- C4 (code bug): for a registered `func(xs ...int) int` the last
parameter renders as a bare `...` (with or without an argument name),
because `reflect.Type.Name()` returns the empty string for the slice
type a variadic parameter has, not the declared `...int` the claim and
the spec state. -/
theorem variadic_renders_bare_ellipsis :
    getFnSignature (.fnVal ⟨[goSliceType intT], true, [intT]⟩) ["xs"] =
      .ok ("xs ...", "int")
    ∧ getFnSignature (.fnVal ⟨[goSliceType intT], true, [intT]⟩) [] =
      .ok ("...", "int") := ⟨rfl, rfl⟩

/-- C5 (code bug): a parameter and a return value of the empty
interface type render as the empty string, not as `any`: the rewrite
in `getFnSignature` compares the reflected name against the literal
text of the empty interface type, which `reflect.Type.Name()` never
returns (it yields the empty string for non-defined types), so the
branch is dead. -/
theorem empty_interface_renders_empty_name :
    getFnSignature (.fnVal ⟨[interfaceEmptyT], false, [interfaceEmptyT]⟩) ["x"] =
      .ok ("x ", "") := rfl

/-- C6 counterexample: the Scenario C docstring keeps the emphasis
markers around `msg`; it is not the marker-free text the claim
states. -/
theorem scenarioC_markers_kept :
    (extractDocs regEcho [gEcho]).map functionDoc.DocString =
      ["returns *msg* unchanged. Useful for testing."]
    ∧ ("returns *msg* unchanged. Useful for testing." : String) ≠
      "returns msg unchanged. Useful for testing." := ⟨rfl, by decide⟩

/-- C6 (corrected): in ACTIVE state each non-matching line is appended
to the docstring with the comment marker stripped and surrounding
whitespace trimmed, separated by a single space; the Scenario C
docstring is the two fragments joined that way, with the emphasis
markers still present. -/
theorem scenarioC_docstring_accumulation :
    extractDocs regEcho [gEcho] =
      [⟨"Echo", "returns *msg* unchanged. Useful for testing.", "msg string", "string"⟩]
    ∧ (∀ (funcs : FuncMap) (doc : functionDoc) (line : String),
        matchFnDocString line = none → doc.Name ≠ "" →
        stepLine funcs doc line =
          some { doc with DocString :=
                   doc.DocString ++ " " ++ goTrimSpace (goTrimPrefixSlashes line) }) := by
  constructor
  · rfl
  · intro funcs doc line hm hname
    simp [stepLine, hm, hname]

/-- C6 witness: one concrete continuation line appended in ACTIVE. -/
theorem scenarioC_docstring_accumulation_witness :
    stepLine regB ⟨"X", "d", "", ""⟩ "// more text" =
      some ⟨"X", "d more text", "", ""⟩ :=
  scenarioC_docstring_accumulation.2 regB ⟨"X", "d", "", ""⟩ "// more text" rfl
    (by decide)

/-- C7 (confirmed): `getFnSignature` errors exactly on values whose
kind is not callable; such a failure abandons only the one group (the
line step returns the abort signal, the abort ends the group scan with
no record, extraction of the other groups is unchanged) and the
overall pass still returns a nil error. -/
theorem typeError_is_local :
    (∀ (v : GoValue) (args : List String),
        (∃ e, getFnSignature v args = .error e) ↔ isFnValue v = false)
    ∧ (∀ (funcs : FuncMap) (doc : functionDoc) (line n ds : String) (fn : GoValue),
        matchFnDocString line = some (n, ds) → funcs n = some fn → ds ≠ "" →
        isFnValue fn = false → stepLine funcs doc line = none)
    ∧ (∀ (funcs : FuncMap) (doc : functionDoc) (l : String) (ls : List String),
        stepLine funcs doc l = none → processGroupAux funcs doc (l :: ls) = none)
    ∧ (∀ (funcs : FuncMap) (pre : List (List String)) (g : List String)
        (post : List (List String)), processGroup funcs g = none →
        extractDocs funcs (pre ++ g :: post) = extractDocs funcs (pre ++ post))
    ∧ (∀ (funcs : FuncMap) (gs : List (List String)),
        (GenerateFunctionDocs funcs (.ok gs)).2 = none) := by
  refine ⟨?_, ?_, ?_, ?_, ?_⟩
  · intro v args
    cases v with
    | fnVal t =>
      constructor
      · rintro ⟨e, he⟩; simp [getFnSignature] at he
      · intro h; simp [isFnValue] at h
    | nonFn =>
      constructor
      · intro _; rfl
      · intro _; exact ⟨_, rfl⟩
  · intro funcs doc line n ds fn hm hf hds hfn
    cases fn with
    | fnVal t => simp [isFnValue] at hfn
    | nonFn => simp [stepLine, hm, hf, hds, getFnSignature]
  · intro funcs doc l ls h
    simp [processGroupAux, h]
  · intro funcs pre g post h
    simp only [extractDocs, List.filterMap_append]
    congr 1
    simp [List.filterMap_cons, h]
  · intro funcs gs; rfl

/-- C7 witness: the `Bad` group is dropped and extraction continues. -/
theorem typeError_is_local_witness :
    stepLine regBad emptyDoc "// fn Bad: broken." = none ∧
    extractDocs regBad [["x"], gBad, gNope] = extractDocs regBad [["x"], gNope] :=
  ⟨typeError_is_local.2.1 regBad emptyDoc "// fn Bad: broken." "Bad" "broken." .nonFn
      rfl rfl (by decide) rfl,
   typeError_is_local.2.2.2.1 regBad [["x"]] gBad [gNope] (by decide)⟩

/-- C8 (confirmed): `GenerateFunctionDocs` fails exactly when the parse
fails, returning the parse error together with a nil record list, and
returns a nil error on every successful parse. -/
theorem parseError_is_fatal :
    ∀ (funcs : FuncMap) (parsed : Except String (List (List String))),
      (∀ e, parsed = .error e → GenerateFunctionDocs funcs parsed = (none, some e))
      ∧ (∀ gs, parsed = .ok gs →
          GenerateFunctionDocs funcs parsed = (some (extractDocs funcs gs), none))
      ∧ ((GenerateFunctionDocs funcs parsed).2 ≠ none ↔ ∃ e, parsed = .error e) := by
  intro funcs parsed
  cases parsed with
  | ok gs =>
    refine ⟨?_, ?_, ?_⟩
    · intro e he; exact absurd he (by simp)
    · intro gs' h
      rw [← Except.ok.inj h]; rfl
    · simp [GenerateFunctionDocs]
  | error e =>
    refine ⟨?_, ?_, ?_⟩
    · intro e' he
      rw [← Except.error.inj he]; rfl
    · intro gs h; exact absurd h (by simp)
    · constructor
      · intro _; exact ⟨e, rfl⟩
      · intro _; simp [GenerateFunctionDocs]

/-- C8 witness: a concrete parse error is surfaced with a nil list. -/
theorem parseError_is_fatal_witness :
    GenerateFunctionDocs regB (Except.error "expected declaration, found x") =
      (none, some "expected declaration, found x") :=
  (parseError_is_fatal regB (Except.error "expected declaration, found x")).1
    "expected declaration, found x" rfl

/-- C9 counterexample: a completed record for a function with exactly
one return value of the empty interface type renders with no space and
no return signature at all, where the claim prescribes a space followed
by the bare rendered type name. -/
theorem single_empty_return_block :
    mainOutput (extractDocs regNope [gNope]) = "Nope()\nyields anything.\n\n"
    ∧ mainOutput (extractDocs regNope [gNope]) ≠ "Nope() \nyields anything.\n\n" :=
  ⟨rfl, by decide⟩

/-- C9 (corrected): for every completed record the assembler renders
`Name(paramSignature)` followed by the return signature (a space and
the bare type name for exactly one return value whose rendered name is
non-empty; a space and a parenthesized comma list for two or more;
nothing for zero return values, and also nothing, without the space,
when a single rendered return name is empty), then the docstring on
the next line, then a blank separator line. -/
theorem assembler_block_format :
    ∀ (name sig ds : String) (outs : List String),
      (∀ o ∈ outs, ',' ∉ o.data) →
      renderDoc ⟨name, ds, sig, goJoin ", " outs⟩ =
        name ++ "(" ++ sig ++ ")" ++ renderReturnsSpec outs ++ "\n" ++ ds ++ "\n\n" := by
  intro name sig ds outs hout
  cases outs with
  | nil => rfl
  | cons a rest =>
    cases rest with
    | nil =>
      by_cases ha : a = ""
      · subst ha; rfl
      · have h1 : splitComma a.data = [a.data] :=
          splitComma_eq_single a.data (hout a (by simp))
        simp [renderDoc, renderReturnsSpec, goJoin, renderReturns, ha, h1]
    | cons b rest2 =>
      have hmem := mem_goJoin_comma a b rest2
      have hne := goJoin_two_ne_empty a b rest2
      have hlen := one_lt_length_splitComma _ hmem
      simp [renderDoc, renderReturnsSpec, renderReturns, hne, hlen]

/-- C9 witness: a two-return record renders with a parenthesized comma
list. -/
theorem assembler_block_format_witness :
    renderDoc ⟨"F", "d", "", goJoin ", " ["int", "error"]⟩ =
      "F() (int, error)\nd\n\n" := by
  rw [assembler_block_format "F" "" "d" ["int", "error"] (by decide)]
  rfl

/-- C10 (confirmed): each comment group contributes at most one record;
an accepted annotation line yields the same freshly-built record
whatever was accumulated before it, so the record emitted for a group
reflects only the last accepted annotation line and its following
continuation lines. -/
theorem last_accepted_line_wins :
    (∀ (funcs : FuncMap) (groups : List (List String)),
        (extractDocs funcs groups).length ≤ groups.length)
    ∧ (∀ (funcs : FuncMap) (doc : functionDoc) (line n ds sig out : String)
        (fn : GoValue),
        matchFnDocString line = some (n, ds) → funcs n = some fn → ds ≠ "" →
        getFnSignature fn (extractArgNames ds) = .ok (sig, out) →
        stepLine funcs doc line = some ⟨n, ds, sig, out⟩)
    ∧ (∀ (funcs : FuncMap) (doc doc' : functionDoc) (line n ds sig out : String)
        (fn : GoValue) (rest : List String),
        matchFnDocString line = some (n, ds) → funcs n = some fn → ds ≠ "" →
        getFnSignature fn (extractArgNames ds) = .ok (sig, out) →
        processGroupAux funcs doc (line :: rest) =
          processGroupAux funcs doc' (line :: rest)) := by
  refine ⟨?_, ?_, ?_⟩
  · intro funcs groups
    exact List.length_filterMap_le _ _
  · intro funcs doc line n ds sig out fn hm hf hds hg
    simp [stepLine, hm, hf, hds, hg]
  · intro funcs doc doc' line n ds sig out fn rest hm hf hds hg
    have hstep : ∀ dd : functionDoc, stepLine funcs dd line = some ⟨n, ds, sig, out⟩ := by
      intro dd; simp [stepLine, hm, hf, hds, hg]
    simp [processGroupAux, hstep doc, hstep doc']

/-- C10 witness: an accepted line overwrites previously accumulated
fields. -/
theorem last_accepted_line_wins_witness :
    stepLine regAdd ⟨"Old", "junk", "s", "r"⟩ "// fn Add: adds *a* and *b* together." =
      some ⟨"Add", "adds *a* and *b* together.", "a int, b int", "int"⟩ :=
  last_accepted_line_wins.2.1 regAdd ⟨"Old", "junk", "s", "r"⟩
    "// fn Add: adds *a* and *b* together." "Add" "adds *a* and *b* together."
    "a int, b int" "int" (.fnVal ⟨[intT, intT], false, [intT]⟩) rfl rfl (by decide) rfl
